import Mathlib

/-!
Verification of the CellularAutomata_IntentionSpace repository.

The repository contains three parallel JavaScript implementations of a
1-D elementary cellular automaton (CA) together with an "Intention-Space"
(IS) variant that overlays pattern-triggered, persistence-triggered and
random override proposals on the baseline rule:

* a flat-function CLI (`src/unnamed/part_000`): `ruleFn`, `initRow`,
  `runCA`, `cpiPropose`, `runISVariant`;
* a class-based CPUX refactor (`src/unnamed/part_001`): `Pulse`,
  `Intention`, `Field`, `ObjectField.absorbIntentionsAndAdvance`,
  `DN_rule` / `DN_cpi` / `DN_inject` / `DN_reflect`;
* an explicit-ledger CPUX variant (`src/CPUX_IS_explicit_CA.js`):
  `makeGatekeeper.buildOverrideMapForPass`, `makeObject.mergeOverride`,
  `DN_CPI` / `DN_REFLECT`, `runCPUX_ISVariant`.

Rows are lists of 0/1 cell values.  JavaScript `Math.random()` is modelled
as an explicit stream `rng : Nat → ℚ` of draws together with a counter that
records how many draws have been consumed; call number `n` returns `rng n`.
Machine numbers in the source are small non-negative integers, so they are
modelled as `Nat` (probabilities and draws as `ℚ`).
-/

namespace CAIS

/-- `ruleFn` from all three sources: the elementary-CA rule table.
JS: `(ruleNumber >> ((l << 2) | (c << 1) | r)) & 1`. -/
def ruleFn (ruleNumber l c r : Nat) : Nat :=
  (ruleNumber >>> ((l <<< 2) ||| (c <<< 1) ||| r)) &&& 1

/-- Left neighbour with circular wrap, JS `prev[(i - 1 + size) % size]`
(for `i < size` the JS index equals `(i + size - 1) % size` over `Nat`). -/
def leftOf (size : Nat) (prev : List Nat) (i : Nat) : Nat :=
  prev.getD ((i + size - 1) % size) 0

/-- Right neighbour with circular wrap, JS `prev[(i + 1) % size]`. -/
def rightOf (size : Nat) (prev : List Nat) (i : Nat) : Nat :=
  prev.getD ((i + 1) % size) 0

/-- One baseline CA transition over a whole row: the inner loop of
`runCA` (part_000) and `makeObject.applyBaseRule` (CPUX_IS_explicit_CA.js). -/
def baseNext (rule size : Nat) (prev : List Nat) : List Nat :=
  (List.range size).map (fun i =>
    ruleFn rule (leftOf size prev i) (prev.getD i 0) (rightOf size prev i))

/-! ## mergeOverride (CPUX_IS_explicit_CA.js) -/

/-- `makeObject.mergeOverride`: copy the baseline row and force every cell
with a truthy override entry to 1.  JS reads `override[i]` for
`i < baselineNext.length`; a missing entry is `undefined`, hence falsy,
matching `getD _ 0`. -/
def mergeOverride (baselineNext override : List Nat) : List Nat :=
  (List.range baselineNext.length).map (fun i =>
    if override.getD i 0 ≠ 0 then 1 else baselineNext.getD i 0)

/-! ## Field (src/unnamed/part_001) -/

/-- `Field` from part_001: a size plus the current pulse map.  The JS
`Map<pulseId, Pulse>` keyed by `"cell:i"` is modelled as an association
list from the cell index to the stored pulse value. -/
structure CAField where
  size : Nat
  current : List (Nat × Nat)
deriving DecidableEq

/-- `Field.setNextState(nextPulseMap)`: unconditionally replace the whole
state.  The source performs no validation of any kind. -/
def setNextState (f : CAField) (nextPulseMap : List (Nat × Nat)) : CAField :=
  ⟨f.size, nextPulseMap⟩

/-- `Field.readCell(i)`: value of the stored pulse, or 0 when the map has
no entry for the cell (JS `p ? p.value : 0`). -/
def readCell (f : CAField) (i : Nat) : Nat :=
  match f.current.lookup i with
  | some v => v
  | none => 0

/-- `Field.snapshotRow()`: read every cell of the current state. -/
def snapshotRow (f : CAField) : List Nat :=
  (List.range f.size).map (readCell f)

/-! ## initRow (all three variants) -/

/-- `initRow` from part_000.  There are only two branches: `"single"`
seeds the centre cell, and every other mode falls into the sparse-random
branch (`Math.random() < 0.1`).  There is no all-zero branch.  Cell `i`
consumes draw number `i`.  (Grid widths in the repository are positive.) -/
def initRowFlat (size : Nat) (mode : String) (rng : Nat → ℚ) : List Nat :=
  if mode = "single" then
    (List.range size).map (fun i => if i = size / 2 then 1 else 0)
  else
    (List.range size).map (fun i => if rng i < 1 / 10 then 1 else 0)

/-- `initRow` from CPUX_IS_explicit_CA.js: `"single"` seeds the centre,
`"random"` seeds sparsely, and any other mode leaves the zero-filled row
untouched (the all-zero policy).  part_001's `initRow` has the same
three-way branch, producing value-0 pulses in the default case. -/
def initRowCpux (size : Nat) (mode : String) (rng : Nat → ℚ) : List Nat :=
  if mode = "single" then
    (List.range size).map (fun i => if i = size / 2 then 1 else 0)
  else if mode = "random" then
    (List.range size).map (fun i => if rng i < 1 / 10 then 1 else 0)
  else
    List.replicate size 0

/-! ## Pulses, intentions and the precedence resolver (src/unnamed/part_001) -/

/-- `Pulse` from part_001: pulse id `"cell:i"` is modelled by the cell
index `i`; the 0/1 payload is `value`. -/
structure Pulse where
  id : Nat
  value : Nat
deriving DecidableEq

/-- `Intention` from part_001: target object, intention kind
(`"baseline"` / `"proposal"` / `"reflection"`), and the carried pulses. -/
structure Intention where
  toObject : String
  kind : String
  pulses : List Pulse
deriving DecidableEq

/-- The per-kind bucket built by `ObjectField.absorbIntentionsAndAdvance`:
walk the intention list in order, and for every intention addressed to
this object and of the given kind, store each pulse under its id with
`Map.set` semantics (a later pulse with the same id overwrites an earlier
one).  `kindVal oid I k i` is the bucket entry for kind `k` at cell `i`. -/
def kindVal (objectId : String) (I : List Intention) (k : String) (i : Nat) :
    Option Nat :=
  I.foldl (fun acc it =>
    if it.toObject = objectId ∧ it.kind = k then
      it.pulses.foldl (fun a p => if p.id = i then some p.value else a) acc
    else acc) none

/-- The per-cell selection loop of `absorbIntentionsAndAdvance`: try each
kind of the configured precedence list in order and take the first bucket
entry; when no kind has one, the source substitutes a fresh
`new Pulse({id: pid, value: 0})`, i.e. the cell resolves to 0. -/
def resolveCell (objectId : String) (precedence : List String)
    (I : List Intention) (i : Nat) : Nat :=
  match precedence.findSome? (fun k => kindVal objectId I k i) with
  | some v => v
  | none => 0

/-- The next-pass row produced by `absorbIntentionsAndAdvance` followed by
`Field.snapshotRow`: one resolved value per cell index. -/
def absorbRow (objectId : String) (precedence : List String)
    (I : List Intention) (size : Nat) : List Nat :=
  (List.range size).map (resolveCell objectId precedence I)

/-- The 3-character neighbourhood string `${l}${c}${r}` used by
`cpiPropose` (part_000), `DN_cpi` (part_001) and `neighborhood3`
(CPUX_IS_explicit_CA.js). -/
def nbString (l c r : Nat) : String :=
  toString l ++ toString c ++ toString r

/-- `cpiPropose` from part_000: 0 for an empty pattern list, else 1 when
the neighbourhood string occurs in the list. -/
def cpiPropose (l c r : Nat) (cpiPatterns : List String) : Nat :=
  if cpiPatterns = [] then 0
  else if nbString l c r ∈ cpiPatterns then 1 else 0

/-- `DN_rule.emitIntentions` from part_001: one `"baseline"` intention
carrying one pulse per cell, valued by the rule table on the wrapped
neighbourhood of the current field row. -/
def dnRuleEmit (objectId : String) (ruleNumber size : Nat) (row : List Nat) :
    List Intention :=
  [⟨objectId, "baseline",
    (List.range size).map (fun i =>
      ⟨i, ruleFn ruleNumber (leftOf size row i) (row.getD i 0) (rightOf size row i)⟩)⟩]

/-- `DN_cpi.emitIntentions` from part_001: a value-1 pulse for every cell
whose neighbourhood string is in the pattern set, wrapped in a single
`"proposal"` intention; the empty pulse list yields no intention at all. -/
def dnCpiEmit (objectId : String) (cpiPatterns : List String) (size : Nat)
    (row : List Nat) : List Intention :=
  let pulses := (List.range size).filterMap (fun i =>
    if nbString (leftOf size row i) (row.getD i 0) (rightOf size row i) ∈ cpiPatterns
    then some ⟨i, 1⟩ else none)
  if pulses = [] then [] else [⟨objectId, "proposal", pulses⟩]

/-- `DN_inject.emitIntentions` from part_001, as pulses plus the state of
the random source: `injectProb <= 0` returns before any `rng()` call, so
the draw counter is untouched; otherwise cell `i` consumes draw
`ctr + i` and a value-1 pulse is emitted when the draw is below the
probability. -/
def dnInjectEmit (injectProb : ℚ) (size : Nat) (rng : Nat → ℚ) (ctr : Nat) :
    List Pulse × Nat :=
  if injectProb ≤ 0 then ([], ctr)
  else
    ((List.range size).filterMap (fun i =>
        if rng (ctr + i) < injectProb then some ⟨i, 1⟩ else none),
      ctr + size)

/-- Reflection target from all three variants:
`(i + dir + size) % size` with `dir = 1` for even `i` and `dir = -1` for
odd `i` (over `Nat`: `(i + size - 1) % size`). -/
def reflTarget (size i : Nat) : Nat :=
  if i % 2 = 0 then (i + 1 + size) % size else (i + size - 1) % size

/-- The body of `DN_reflect.emitIntentions`'s cell loop (part_001): read
the cell, update `consecOnes[i]` in place (increment on a 1, reset to 0
on a 0), then, when the updated counter has reached the hold, append one
value-1 pulse aimed at the alternating neighbour. -/
def reflectLoopBody (reflectionHold size : Nat) (row : List Nat)
    (acc : List Pulse × List Nat) (i : Nat) : List Pulse × List Nat :=
  let c := row.getD i 0
  let cs := acc.2.set i (if c ≠ 0 then acc.2.getD i 0 + 1 else 0)
  if reflectionHold ≤ cs.getD i 0 then
    (acc.1 ++ [⟨reflTarget size i, 1⟩], cs)
  else (acc.1, cs)

/-- `DN_reflect.emitIntentions` from part_001, as the pulse list plus the
updated counters.  `reflectionHold >= 1e9` returns `[]` immediately,
leaving the `consecOnes` array untouched; otherwise the cell loop runs
over every index. -/
def dnReflectEmit (reflectionHold size : Nat) (row : List Nat)
    (consecOnes : List Nat) : List Pulse × List Nat :=
  if 1000000000 ≤ reflectionHold then ([], consecOnes)
  else
    (List.range size).foldl (reflectLoopBody reflectionHold size row)
      ([], consecOnes)

/-! ## DN_CPI of CPUX_IS_explicit_CA.js -/

/-- A ledger pulse of CPUX_IS_explicit_CA.js, reduced to the fields the
claims are about: target cell and pulse kind. -/
structure CPulse where
  targetIndex : Nat
  pulseKind : String
deriving DecidableEq

/-- `DN_CPI.emitIntentions` from CPUX_IS_explicit_CA.js, as pulses plus
the state of the random source.  For every cell the pattern set is
consulted and `rng()` is called unconditionally — one draw per cell
regardless of `injectProb` — so the counter always advances by the row
length.  A novelty hit dominates a pattern match for the pulse kind.
`patternSet` stands for the trimmed, de-duplicated pattern set built in
`makeDesignNodes`. -/
def dnCpiCpuxEmit (patternSet : List String) (injectProb : ℚ) (rng : Nat → ℚ)
    (ctr : Nat) (prevSnapshot : List Nat) : List CPulse × Nat :=
  ((List.range prevSnapshot.length).filterMap (fun i =>
      let patMatch := patternSet ≠ [] ∧
        nbString (leftOf prevSnapshot.length prevSnapshot i)
          (prevSnapshot.getD i 0)
          (rightOf prevSnapshot.length prevSnapshot i) ∈ patternSet
      if rng (ctr + i) < injectProb then some ⟨i, "novelty"⟩
      else if patMatch then some ⟨i, "proposal"⟩
      else none),
    ctr + prevSnapshot.length)

/-! ## The flat runner (src/unnamed/part_000) -/

/-- The data produced by one iteration of the `t` loop of
`runISVariant` (part_000): the two phase-A override arrays, the updated
persistence counters, the resolved next row, and the advanced draw
counter. -/
structure StepOut where
  proposal : List Nat
  reflection : List Nat
  consec : List Nat
  next : List Nat
  ctr : Nat
deriving DecidableEq

/-- One iteration of `runISVariant`'s step loop.  Phase A: per cell,
`proposal[i]` is forced to 1 by a CPI pattern match or by the novelty
draw `Math.random() < injectProb` (the draw is consumed for every cell;
cell `i` of this step uses draw `ctr + i`); `consecOnes[i]` is
incremented on a 1 and reset on a 0 before the reflection test; a cell
whose updated counter reaches the hold sets the alternating neighbour's
reflection flag.  Phase B: a cell with either flag becomes 1, any other
cell takes the baseline rule value. -/
def flatStep (rule : Nat) (cpiPatterns : List String) (injectProb : ℚ)
    (reflectionHold : Nat) (rng : Nat → ℚ) (size : Nat)
    (prev consecOnes : List Nat) (ctr : Nat) : StepOut :=
  let consec2 := (List.range size).map (fun i =>
    if prev.getD i 0 ≠ 0 then consecOnes.getD i 0 + 1 else 0)
  let proposal := (List.range size).map (fun i =>
    if cpiPropose (leftOf size prev i) (prev.getD i 0) (rightOf size prev i)
         cpiPatterns ≠ 0
       ∨ rng (ctr + i) < injectProb then 1 else 0)
  let reflection := (List.range size).foldl (fun arr i =>
    if reflectionHold ≤ consec2.getD i 0 then arr.set (reflTarget size i) 1
    else arr) (List.replicate size 0)
  let next := (List.range size).map (fun i =>
    if proposal.getD i 0 ≠ 0 ∨ reflection.getD i 0 ≠ 0 then 1
    else ruleFn rule (leftOf size prev i) (prev.getD i 0) (rightOf size prev i))
  ⟨proposal, reflection, consec2, next, ctr + size⟩

/-- The step loop of `runISVariant`, returning the full per-step trace.
`runISVariant` runs it for `steps - 1` iterations starting from the seed
row, all-zero counters and an unconsumed random source. -/
def isTrace (rule : Nat) (cpiPatterns : List String) (injectProb : ℚ)
    (reflectionHold : Nat) (rng : Nat → ℚ) (size : Nat) :
    Nat → List Nat → List Nat → Nat → List StepOut
  | 0, _, _, _ => []
  | Nat.succ n, prev, consecOnes, ctr =>
    let o := flatStep rule cpiPatterns injectProb reflectionHold rng size
      prev consecOnes ctr
    o :: isTrace rule cpiPatterns injectProb reflectionHold rng size n
      o.next o.consec o.ctr

/-- `runISVariant` (part_000) with the seed row made explicit: row 0 is
the seed, and each further row is the `next` row of the corresponding
step.  The JS grid has `max steps 1` rows because `grid[0]` is assigned
unconditionally. -/
def runISVariantFrom (rule size steps : Nat) (row0 : List Nat)
    (cpiPatterns : List String) (injectProb : ℚ) (reflectionHold : Nat)
    (rng : Nat → ℚ) : List (List Nat) :=
  row0 :: (isTrace rule cpiPatterns injectProb reflectionHold rng size
    (steps - 1) row0 (List.replicate size 0) 0).map StepOut.next

/-- The step loop of `runCA` (part_000). -/
def caSteps (rule size : Nat) : Nat → List Nat → List (List Nat)
  | 0, _ => []
  | Nat.succ n, prev =>
    let next := baseNext rule size prev
    next :: caSteps rule size n next

/-- `runCA` (part_000) with the seed row made explicit. -/
def runCAFrom (rule size steps : Nat) (row0 : List Nat) : List (List Nat) :=
  row0 :: caSteps rule size (steps - 1) row0

/-! ## Generic list helpers -/

lemma getD_map_range {α : Type} (f : Nat → α) (d : α) {i n : Nat} (hi : i < n) :
    ((List.range n).map f).getD i d = f i := by
  rw [List.getD_eq_getElem?_getD, List.getElem?_map, List.getElem?_range hi]
  rfl

lemma getD_le_of_forall {l : List Nat} {c : Nat} (h : ∀ v ∈ l, v ≤ c) (i : Nat) :
    l.getD i 0 ≤ c := by
  rw [List.getD_eq_getElem?_getD]
  rcases lt_or_le i l.length with hi | hi
  · rw [List.getElem?_eq_getElem hi]
    exact h _ (List.getElem_mem hi)
  · rw [List.getElem?_eq_none hi]
    exact Nat.zero_le c

lemma getD_replicate_self {n i : Nat} {a : Nat} :
    (List.replicate n a).getD i a = a := by
  rw [List.getD_eq_getElem?_getD]
  rcases lt_or_le i n with hi | hi
  · rw [List.getElem?_replicate_of_lt hi]; rfl
  · rw [List.getElem?_eq_none (by simpa using hi)]; rfl

lemma list_ext_getD {l₁ l₂ : List Nat} (hlen : l₁.length = l₂.length)
    (h : ∀ j, l₁.getD j 0 = l₂.getD j 0) : l₁ = l₂ := by
  refine List.ext_getElem hlen (fun j h₁ h₂ => ?_)
  have := h j
  rwa [List.getD_eq_getElem?_getD, List.getD_eq_getElem?_getD,
    List.getElem?_eq_getElem h₁, List.getElem?_eq_getElem h₂] at this

lemma readCell_eq_lookup (f : CAField) (i : Nat) :
    readCell f i = (f.current.lookup i).getD 0 := by
  unfold readCell
  cases f.current.lookup i <;> rfl

/-! ## C2: the rule table -/

set_option maxRecDepth 10000 in
/-- C2.  For every rule number in [0,255] and every neighbourhood of bits,
`ruleFn` returns bit `l*4 + c*2 + r` of the rule number (the quotient by
that power of two, mod 2), and being a pure function it returns the same
output on identical inputs. -/
theorem c2_rule_table_bit :
    ∀ n < 256, ∀ l < 2, ∀ c < 2, ∀ r < 2,
      ruleFn n l c r = n / 2 ^ (4 * l + 2 * c + r) % 2 ∧
      ruleFn n l c r = ruleFn n l c r := by decide

/-- Witness for C2 at rule 110 and neighbourhood (1,0,1). -/
theorem c2_rule_table_bit_witness :
    (110 < 256 ∧ 1 < 2 ∧ 0 < 2 ∧ 1 < 2) ∧
    (ruleFn 110 1 0 1 = 110 / 2 ^ (4 * 1 + 2 * 0 + 1) % 2 ∧
      ruleFn 110 1 0 1 = ruleFn 110 1 0 1) :=
  ⟨by decide, c2_rule_table_bit 110 (by decide) 1 (by decide) 0 (by decide) 1 (by decide)⟩

/-! ## C6: the "101" pattern-trigger scenario -/

set_option maxRecDepth 4000 in
/-- C6.  With pattern set {"101"} ranked above baseline, rule 0, size 5
and seed row [1,0,1,0,0], the resolved next row is 1 exactly at cell 1:
first through the part_001 pipeline (`DN_cpi` and `DN_rule` emissions
resolved by `ObjectField`'s precedence), then through part_000's
`runISVariant` (injection probability 0, hold out of reach), whose step-1
row is [0,1,0,0,0]. -/
theorem c6_pattern_scenario :
    absorbRow "O_field" ["proposal", "reflection", "baseline"]
      (dnCpiEmit "O_field" ["101"] 5 [1,0,1,0,0]
        ++ dnRuleEmit "O_field" 0 5 [1,0,1,0,0]) 5 = [0, 1, 0, 0, 0] ∧
    runISVariantFrom 0 5 2 [1,0,1,0,0] ["101"] 0 1000000 (fun _ => 1)
      = [[1,0,1,0,0], [0,1,0,0,0]] := by decide

/-! ## C8: seeding policies -/

/-- C8 counterexample.  part_000's `initRow` has no all-zero branch: for
any mode other than `"single"` (here `"zero"`) it falls into the
sparse-random branch, and a draw below 0.1 seeds the cell, so the
returned row is [1], not the all-zero row the claim promises. -/
theorem c8_allzero_counterexample :
    initRowFlat 1 "zero" (fun _ => 0) = [1] ∧
    ([1] : List Nat) ≠ List.replicate 1 0 := by
  constructor
  · rw [initRowFlat, if_neg (by decide : ("zero" : String) ≠ "single")]
    norm_num [List.range_succ]
  · decide

/-- C8 as amended.  In the CPUX variant (and likewise the class-based
variant) the mode selector accepts all three policies: any mode other
than `"single"` and `"random"` (written `"zero"` here) leaves the row
all-zero, while `"single"` seeds the centre cell and `"random"` seeds
each cell on a draw below 0.1. -/
theorem c8_allzero_mode (size : Nat) (rng : Nat → ℚ) :
    initRowCpux size "zero" rng = List.replicate size 0 ∧
    initRowCpux size "single" rng
      = (List.range size).map (fun i => if i = size / 2 then 1 else 0) ∧
    initRowCpux size "random" rng
      = (List.range size).map (fun i => if rng i < 1 / 10 then 1 else 0) := by
  refine ⟨by simp [initRowCpux], by simp [initRowCpux], by simp [initRowCpux]⟩

/-! ## C9: Field.setNextState -/

/-- C9 counterexample.  `Field.setNextState` accepts a pulse map of the
wrong size without any error: replacing the size-2 field's map (row
[0,0]) by a single-entry map succeeds and changes the row to [1,0], even
though the new map's size (1) disagrees with the field size (2) — so the
claimed DimensionMismatch failure and the claimed "row unchanged on
mismatch" are both false. -/
theorem c9_replace_counterexample :
    snapshotRow (setNextState ⟨2, [(0,0),(1,0)]⟩ [(0,1)]) = [1, 0] ∧
    ([(0,1)] : List (Nat × Nat)).length ≠ 2 ∧
    snapshotRow ⟨2, [(0,0),(1,0)]⟩ = [0, 0] := by decide

/-- C9 as amended.  `setNextState` performs no validation at all: for any
field and any new pulse map it unconditionally installs the map (keeping
the declared size), and the snapshot row then reads each cell from the
new map with missing cells defaulting to 0. -/
theorem c9_replace_unchecked (f : CAField) (m : List (Nat × Nat)) :
    (setNextState f m).current = m ∧ (setNextState f m).size = f.size ∧
    snapshotRow (setNextState f m)
      = (List.range f.size).map (fun i => (m.lookup i).getD 0) := by
  refine ⟨rfl, rfl, ?_⟩
  simp [snapshotRow, readCell_eq_lookup, setNextState]

/-! ## C10: mergeOverride -/

/-- C10.  For a binary baseline row and an override map of the same
length, the merged row keeps the baseline's length, equals 1 wherever the
override is set and the baseline value elsewhere, and consequently
dominates the baseline pointwise (an override can only force a cell to 1,
never to 0). -/
theorem c10_merge_override (b o : List Nat) (i : Nat)
    (_hlen : b.length = o.length) (hi : i < b.length)
    (hbin : ∀ v ∈ b, v ≤ 1) :
    (mergeOverride b o).length = b.length ∧
    (mergeOverride b o).getD i 0
      = (if o.getD i 0 ≠ 0 then 1 else b.getD i 0) ∧
    b.getD i 0 ≤ (mergeOverride b o).getD i 0 := by
  have hg := getD_map_range
    (fun i => if o.getD i 0 ≠ 0 then 1 else b.getD i 0) 0 hi
  refine ⟨by simp [mergeOverride], hg, ?_⟩
  rw [mergeOverride, hg]
  show b.getD i 0 ≤ if o.getD i 0 ≠ 0 then 1 else b.getD i 0
  split
  · exact getD_le_of_forall hbin i
  · exact le_refl _

/-- Witness for C10 at baseline [0,1], override [1,0], cell 0. -/
theorem c10_merge_override_witness :
    (([0,1] : List Nat).length = ([1,0] : List Nat).length
      ∧ 0 < ([0,1] : List Nat).length
      ∧ ∀ v ∈ ([0,1] : List Nat), v ≤ 1) ∧
    ((mergeOverride [0,1] [1,0]).length = 2 ∧
      (mergeOverride [0,1] [1,0]).getD 0 0 = 1 ∧
      ([0,1] : List Nat).getD 0 0 ≤ (mergeOverride [0,1] [1,0]).getD 0 0) :=
  ⟨by decide, c10_merge_override [0,1] [1,0] 0 (by decide) (by decide) (by decide)⟩

/-! ## C1: the precedence law -/

lemma kindVal_pair (oid k1 k2 q : String) (i v1 v2 : Nat) :
    kindVal oid [⟨oid, k1, [⟨i, v1⟩]⟩, ⟨oid, k2, [⟨i, v2⟩]⟩] q i =
      if k2 = q then some v2 else if k1 = q then some v1 else none := by
  unfold kindVal
  simp only [List.foldl_cons, List.foldl_nil]
  by_cases h2 : k2 = q <;> by_cases h1 : k1 = q <;> simp [h1, h2]

lemma findSome?_prec (F : String → Option Nat) (k : String) (vk : Nat)
    (hFk : F k = some vk)
    (hother : ∀ q, q ≠ k → q ≠ "baseline" → F q = none) :
    ∀ P : List String, k ∈ P →
      List.indexOf k P < List.indexOf "baseline" P →
      P.findSome? F = some vk := by
  intro P
  induction P with
  | nil => intro h _; exact absurd h (List.not_mem_nil k)
  | cons a P ih =>
    intro hmem hlt
    by_cases hak : a = k
    · subst hak
      rw [List.findSome?_cons, hFk]
    · have hab : a ≠ "baseline" := by
        intro hb
        rw [hb, List.indexOf_cons_self] at hlt
        exact Nat.not_lt_zero _ hlt
      have hmem' : k ∈ P := by
        rcases List.mem_cons.mp hmem with h | h
        · exact absurd h.symm hak
        · exact h
      have hlt' : List.indexOf k P < List.indexOf "baseline" P := by
        rw [List.indexOf_cons_ne P hak, List.indexOf_cons_ne P hab] at hlt
        omega
      rw [List.findSome?_cons, hother a hak hab]
      exact ih hmem' hlt'

/-- C1.  For any precedence list ranking a category `k` strictly above
`"baseline"`, a cell targeted by both a baseline proposal and a `k`
proposal resolves to the `k` proposal's value, whichever of the two
intentions was appended first. -/
theorem c1_precedence_law (oid : String) (P : List String) (k : String)
    (i vb vk : Nat) (hmem : k ∈ P)
    (hprec : List.indexOf k P < List.indexOf "baseline" P) :
    resolveCell oid P [⟨oid, "baseline", [⟨i, vb⟩]⟩, ⟨oid, k, [⟨i, vk⟩]⟩] i = vk ∧
    resolveCell oid P [⟨oid, k, [⟨i, vk⟩]⟩, ⟨oid, "baseline", [⟨i, vb⟩]⟩] i = vk := by
  have hkb : k ≠ "baseline" := by
    intro h
    rw [h] at hprec
    exact lt_irrefl _ hprec
  constructor
  · have hfind := findSome?_prec
      (fun q => kindVal oid [⟨oid, "baseline", [⟨i, vb⟩]⟩, ⟨oid, k, [⟨i, vk⟩]⟩] q i)
      k vk (by simp [kindVal_pair])
      (fun q hqk hqb => by simp [kindVal_pair, Ne.symm hqk, Ne.symm hqb])
      P hmem hprec
    unfold resolveCell
    rw [hfind]
  · have hfind := findSome?_prec
      (fun q => kindVal oid [⟨oid, k, [⟨i, vk⟩]⟩, ⟨oid, "baseline", [⟨i, vb⟩]⟩] q i)
      k vk (by simp [kindVal_pair, Ne.symm hkb])
      (fun q hqk hqb => by simp [kindVal_pair, Ne.symm hqk, Ne.symm hqb])
      P hmem hprec
    unfold resolveCell
    rw [hfind]

/-- Witness for C1: precedence ["proposal","reflection","baseline"],
baseline value 0 and proposal value 1 at cell 0, in both append orders. -/
theorem c1_precedence_law_witness :
    ("proposal" ∈ (["proposal", "reflection", "baseline"] : List String) ∧
      List.indexOf "proposal" ["proposal", "reflection", "baseline"]
        < List.indexOf "baseline" ["proposal", "reflection", "baseline"]) ∧
    (resolveCell "O_field" ["proposal", "reflection", "baseline"]
        [⟨"O_field", "baseline", [⟨0, 0⟩]⟩, ⟨"O_field", "proposal", [⟨0, 1⟩]⟩] 0 = 1 ∧
      resolveCell "O_field" ["proposal", "reflection", "baseline"]
        [⟨"O_field", "proposal", [⟨0, 1⟩]⟩, ⟨"O_field", "baseline", [⟨0, 0⟩]⟩] 0 = 1) :=
  ⟨by decide, c1_precedence_law "O_field" ["proposal", "reflection", "baseline"]
    "proposal" 0 0 1 (by decide) (by decide)⟩

/-! ## C3: resolution of a cell nobody proposed -/

/-- C3 counterexample.  Resolving a step with no proposals at all does
not fail: the class-based resolver substitutes a fresh value-0 pulse for
the missing cell, so the resolved row is [0] — the silent default the
claim says never happens. -/
theorem c3_no_proposal_counterexample :
    absorbRow "O_field" ["proposal", "reflection", "baseline"] [] 1 = [0] := by
  decide

/-- C3 as amended.  When no proposal of any configured category targets a
cell of the step being resolved, resolution does not fail with a
ConfigurationError: the cell silently resolves to the default value 0. -/
theorem c3_default_zero (oid : String) (P : List String) (I : List Intention)
    (size i : Nat) (hi : i < size)
    (hnone : ∀ k ∈ P, kindVal oid I k i = none) :
    (absorbRow oid P I size).getD i 0 = 0 := by
  unfold absorbRow
  rw [getD_map_range _ _ hi]
  unfold resolveCell
  rw [List.findSome?_eq_none_iff.mpr hnone]

/-- Witness for C3 as amended: empty intention list, one cell. -/
theorem c3_default_zero_witness :
    (0 < 1 ∧ ∀ k ∈ (["proposal", "reflection", "baseline"] : List String),
      kindVal "O_field" [] k 0 = none) ∧
    (absorbRow "O_field" ["proposal", "reflection", "baseline"] [] 1).getD 0 0 = 0 :=
  ⟨by decide, c3_default_zero "O_field" ["proposal", "reflection", "baseline"]
    [] 1 0 (by decide) (by decide)⟩

/-! ## C7: random draws when the injector is disabled -/

/-- C7 counterexample.  The explicit-CPUX `DN_CPI.emitIntentions` — the
operation that performs novelty injection in that variant, cited by the
claim — calls `rng()` once per cell even with injection probability 0:
on a one-cell row the draw counter advances from 0 to 1, so the random
source's state is not left unchanged. -/
theorem c7_draws_counterexample :
    dnCpiCpuxEmit [] 0 (fun _ => 0) 0 [0] = ([], 1) ∧ (1 : Nat) ≠ 0 := by
  decide

/-- C7 as amended.  With injection probability p ≤ 0 the class-based
`DN_inject.emitIntentions` short-circuits — zero proposals and the draw
counter untouched — while the explicit-CPUX `DN_CPI.emitIntentions`
still consumes one draw per cell (the counter advances by the row
length), although with non-negative draws none of its emitted pulses is
a novelty pulse. -/
theorem c7_injector_disabled (p : ℚ) (size : Nat) (rng : Nat → ℚ) (ctr : Nat)
    (patternSet : List String) (prev : List Nat) (hp : p ≤ 0) :
    dnInjectEmit p size rng ctr = ([], ctr) ∧
    ((∀ n, 0 ≤ rng n) →
      ∀ pu ∈ (dnCpiCpuxEmit patternSet p rng ctr prev).1,
        pu.pulseKind = "proposal") ∧
    (dnCpiCpuxEmit patternSet p rng ctr prev).2 = ctr + prev.length := by
  refine ⟨by rw [dnInjectEmit, if_pos hp], ?_, rfl⟩
  intro hrng pu hmem
  simp only [dnCpiCpuxEmit, List.mem_filterMap, List.mem_range] at hmem
  obtain ⟨a, ha, hfa⟩ := hmem
  have hnd : ¬ rng (ctr + a) < p := not_lt.mpr (hp.trans (hrng _))
  rw [if_neg hnd] at hfa
  split at hfa
  · rw [← Option.some_inj.mp hfa]
  · exact Option.noConfusion hfa

/-- Witness for C7: p = 0, a two-cell row, counter starting at 7. -/
theorem c7_injector_disabled_witness :
    ((0 : ℚ) ≤ 0) ∧ dnInjectEmit 0 2 (fun _ => 0) 7 = ([], 7) ∧
    (dnCpiCpuxEmit ["101"] 0 (fun _ => 0) 7 [1, 0]).2 = 9 :=
  ⟨le_refl 0,
    (c7_injector_disabled 0 2 (fun _ => 0) 7 ["101"] [1, 0] (le_refl 0)).1,
    (c7_injector_disabled 0 2 (fun _ => 0) 7 ["101"] [1, 0] (le_refl 0)).2.2⟩

/-! ## C5: the persistence reflector -/

lemma getD_set_self {l : List Nat} {i v : Nat} (h : i < l.length) :
    (l.set i v).getD i 0 = v := by
  rw [List.getD_eq_getElem?_getD, List.getElem?_set]
  simp [h]

lemma getD_set_ne {l : List Nat} {i j v : Nat} (h : i ≠ j) :
    (l.set i v).getD j 0 = l.getD j 0 := by
  rw [List.getD_eq_getElem?_getD, List.getElem?_set, if_neg h,
    ← List.getD_eq_getElem?_getD]

lemma reflectLoopBody_eq (hold size : Nat) (row : List Nat)
    (acc : List Pulse × List Nat) (i : Nat) :
    reflectLoopBody hold size row acc i =
      if hold ≤ (acc.2.set i
          (if row.getD i 0 ≠ 0 then acc.2.getD i 0 + 1 else 0)).getD i 0
      then (acc.1 ++ [Pulse.mk (reflTarget size i) 1],
            acc.2.set i (if row.getD i 0 ≠ 0 then acc.2.getD i 0 + 1 else 0))
      else (acc.1,
            acc.2.set i (if row.getD i 0 ≠ 0 then acc.2.getD i 0 + 1 else 0)) :=
  rfl

lemma reflect_loop_spec (hold size : Nat) (row consec : List Nat)
    (hlen : consec.length = size) :
    ∀ n, n ≤ size →
      ((List.range n).foldl (reflectLoopBody hold size row) ([], consec)).2.length
          = size ∧
      (∀ j, ((List.range n).foldl (reflectLoopBody hold size row) ([], consec)).2.getD j 0
          = if j < n then (if row.getD j 0 ≠ 0 then consec.getD j 0 + 1 else 0)
            else consec.getD j 0) ∧
      ((List.range n).foldl (reflectLoopBody hold size row) ([], consec)).1
        = (List.range n).filterMap (fun i =>
            if hold ≤ (if row.getD i 0 ≠ 0 then consec.getD i 0 + 1 else 0)
            then some (Pulse.mk (reflTarget size i) 1) else none) := by
  intro n
  induction n with
  | zero => intro _; exact ⟨hlen, fun j => by simp, rfl⟩
  | succ n ih =>
    intro hn
    obtain ⟨ihl, ihg, ihp⟩ := ih (Nat.le_of_succ_le hn)
    have hnsize : n < size := hn
    set S := (List.range n).foldl (reflectLoopBody hold size row) ([], consec)
      with hS
    have hgn : S.2.getD n 0 = consec.getD n 0 := by
      rw [ihg n, if_neg (lt_irrefl n)]
    have hbody : reflectLoopBody hold size row S n
        = if hold ≤ (if row.getD n 0 ≠ 0 then consec.getD n 0 + 1 else 0)
          then (S.1 ++ [Pulse.mk (reflTarget size n) 1],
                S.2.set n (if row.getD n 0 ≠ 0 then consec.getD n 0 + 1 else 0))
          else (S.1,
                S.2.set n (if row.getD n 0 ≠ 0 then consec.getD n 0 + 1 else 0)) := by
      rw [reflectLoopBody_eq, hgn, getD_set_self (by rw [ihl]; exact hnsize)]
    have hsnd : (reflectLoopBody hold size row S n).2
        = S.2.set n (if row.getD n 0 ≠ 0 then consec.getD n 0 + 1 else 0) := by
      rw [hbody]
      by_cases hc : hold ≤ (if row.getD n 0 ≠ 0 then consec.getD n 0 + 1 else 0)
      · rw [if_pos hc]
      · rw [if_neg hc]
    have hfst : (reflectLoopBody hold size row S n).1
        = S.1 ++ (if hold ≤ (if row.getD n 0 ≠ 0 then consec.getD n 0 + 1 else 0)
            then [Pulse.mk (reflTarget size n) 1] else []) := by
      rw [hbody]
      by_cases hc : hold ≤ (if row.getD n 0 ≠ 0 then consec.getD n 0 + 1 else 0)
      · rw [if_pos hc, if_pos hc]
      · rw [if_neg hc, if_neg hc, List.append_nil]
    rw [List.range_succ, List.foldl_append, List.foldl_cons, List.foldl_nil, ← hS]
    refine ⟨?_, ?_, ?_⟩
    · rw [hsnd, List.length_set, ihl]
    · intro j
      rw [hsnd]
      by_cases hj : n = j
      · subst hj
        rw [getD_set_self (by rw [ihl]; exact hnsize), if_pos (Nat.lt_succ_self n)]
      · rw [getD_set_ne hj, ihg j]
        rcases Nat.lt_trichotomy j n with h | h | h
        · rw [if_pos h, if_pos (Nat.lt_succ_of_lt h)]
        · exact absurd h.symm hj
        · rw [if_neg (Nat.lt_asymm h), if_neg (by omega)]
    · rw [hfst, ihp, List.filterMap_append]
      congr 1
      simp only [List.filterMap_cons, List.filterMap_nil]
      by_cases hc : hold ≤ (if row.getD n 0 ≠ 0 then consec.getD n 0 + 1 else 0)
      · rw [if_pos hc, if_pos hc]
      · rw [if_neg hc, if_neg hc]

/-- C5 counterexample.  With `reflectionHold = 1e9` the class-based
`DN_reflect.emitIntentions` returns before updating any counter: on row
[1] the counter for cell 0 stays 0 instead of being incremented to 1, so
the claimed unconditional counter update ("incremented when the current
row's value at that cell is 1, updated before emission is decided") is
false for this input. -/
theorem c5_hold_guard_counterexample :
    dnReflectEmit 1000000000 1 [1] [0] = ([], [0]) ∧
    (dnReflectEmit 1000000000 1 [1] [0]).2 ≠ [1] := by decide

/-- C5 as amended.  Provided the hold threshold is below 10^9 (the
class-based reflector short-circuits above that), the reflector updates
each cell's counter from the current row — increment on 1, reset on 0 —
before deciding emission, and emits exactly one value-1 reflection pulse
targeting `(i+1) mod size` for even `i` and `(i-1) mod size` for odd `i`
for precisely the cells whose updated counter has reached the hold. -/
theorem c5_reflector (hold size : Nat) (row consec : List Nat)
    (hhold : hold < 1000000000) (hlen : consec.length = size) :
    (dnReflectEmit hold size row consec).1
      = (List.range size).filterMap (fun i =>
          if hold ≤ (if row.getD i 0 ≠ 0 then consec.getD i 0 + 1 else 0)
          then some (Pulse.mk (reflTarget size i) 1) else none) ∧
    (dnReflectEmit hold size row consec).2
      = (List.range size).map (fun i =>
          if row.getD i 0 ≠ 0 then consec.getD i 0 + 1 else 0) := by
  obtain ⟨hl, hg, hp⟩ := reflect_loop_spec hold size row consec hlen size (le_refl size)
  rw [dnReflectEmit, if_neg (by omega)]
  refine ⟨hp, ?_⟩
  apply list_ext_getD
  · rw [hl]
    simp
  · intro j
    rw [hg j]
    rcases lt_or_le j size with hj | hj
    · rw [if_pos hj, getD_map_range _ _ hj]
    · rw [if_neg (not_lt.mpr hj), List.getD_eq_getElem?_getD,
        List.getElem?_eq_none (by omega : consec.length ≤ j),
        List.getD_eq_getElem?_getD, List.getElem?_eq_none (by simp [hj])]

/-- Witness for C5: hold 2, size 2, row [1,1], counters [1,0]; cell 0's
counter reaches 2 and pushes a pulse to its even-rule neighbour, cell 1. -/
theorem c5_reflector_witness :
    (2 < 1000000000 ∧ ([1, 0] : List Nat).length = 2) ∧
    ((dnReflectEmit 2 2 [1, 1] [1, 0]).1 = [Pulse.mk 1 1] ∧
      (dnReflectEmit 2 2 [1, 1] [1, 0]).2 = [2, 1]) :=
  ⟨by decide, c5_reflector 2 2 [1, 1] [1, 0] (by decide) (by decide)⟩

/-! ## C4: the disabling law -/

lemma flatStep_proposal (rule : Nat) (pats : List String) (p : ℚ) (hold : Nat)
    (rng : Nat → ℚ) (size : Nat) (prev consec : List Nat) (ctr : Nat) :
    (flatStep rule pats p hold rng size prev consec ctr).proposal
      = (List.range size).map (fun i =>
          if cpiPropose (leftOf size prev i) (prev.getD i 0) (rightOf size prev i)
               pats ≠ 0
             ∨ rng (ctr + i) < p then 1 else 0) := rfl

lemma flatStep_consec (rule : Nat) (pats : List String) (p : ℚ) (hold : Nat)
    (rng : Nat → ℚ) (size : Nat) (prev consec : List Nat) (ctr : Nat) :
    (flatStep rule pats p hold rng size prev consec ctr).consec
      = (List.range size).map (fun i =>
          if prev.getD i 0 ≠ 0 then consec.getD i 0 + 1 else 0) := rfl

lemma flatStep_reflection (rule : Nat) (pats : List String) (p : ℚ) (hold : Nat)
    (rng : Nat → ℚ) (size : Nat) (prev consec : List Nat) (ctr : Nat) :
    (flatStep rule pats p hold rng size prev consec ctr).reflection
      = (List.range size).foldl (fun arr i =>
          if hold ≤ ((flatStep rule pats p hold rng size prev consec ctr).consec).getD i 0
          then arr.set (reflTarget size i) 1 else arr)
          (List.replicate size 0) := rfl

lemma flatStep_next (rule : Nat) (pats : List String) (p : ℚ) (hold : Nat)
    (rng : Nat → ℚ) (size : Nat) (prev consec : List Nat) (ctr : Nat) :
    (flatStep rule pats p hold rng size prev consec ctr).next
      = (List.range size).map (fun i =>
          if (flatStep rule pats p hold rng size prev consec ctr).proposal.getD i 0 ≠ 0
             ∨ (flatStep rule pats p hold rng size prev consec ctr).reflection.getD i 0 ≠ 0
          then 1
          else ruleFn rule (leftOf size prev i) (prev.getD i 0) (rightOf size prev i)) :=
  rfl

lemma foldl_set_no_fire (hold : Nat) (cons2 : List Nat) (size : Nat) :
    ∀ (idxs : List Nat) (init : List Nat),
      (∀ i ∈ idxs, ¬ hold ≤ cons2.getD i 0) →
      idxs.foldl (fun arr i =>
        if hold ≤ cons2.getD i 0 then arr.set (reflTarget size i) 1 else arr)
        init = init := by
  intro idxs
  induction idxs with
  | nil => intro init _; rfl
  | cons a l ih =>
    intro init h
    rw [List.foldl_cons, if_neg (h a (List.mem_cons_self a l))]
    exact ih init (fun i hi => h i (List.mem_cons_of_mem a hi))

lemma isTrace_disabled (rule size hold : Nat) (rng : Nat → ℚ)
    (hrng : ∀ n, 0 ≤ rng n) :
    ∀ (n : Nat) (prev consec : List Nat) (ctr c : Nat),
      (∀ v ∈ consec, v ≤ c) → c + n < hold →
      (isTrace rule [] 0 hold rng size n prev consec ctr).map StepOut.next
          = caSteps rule size n prev ∧
      ∀ o ∈ isTrace rule [] 0 hold rng size n prev consec ctr,
        o.proposal = List.replicate size 0 ∧ o.reflection = List.replicate size 0 := by
  intro n
  induction n with
  | zero =>
    intro prev consec ctr c _ _
    exact ⟨rfl, fun o ho => absurd ho (List.not_mem_nil o)⟩
  | succ n ih =>
    intro prev consec ctr c hc hlt
    have hprop : (flatStep rule [] 0 hold rng size prev consec ctr).proposal
        = List.replicate size 0 := by
      rw [flatStep_proposal]
      rw [List.map_congr_left (g := fun _ => (0 : Nat)) (fun a _ => by
        rw [if_neg (not_or.mpr
          ⟨by simp [cpiPropose], not_lt.mpr (hrng (ctr + a))⟩)])]
      rw [List.map_const', List.length_range]
    have hcons2 : ∀ v ∈ (flatStep rule [] 0 hold rng size prev consec ctr).consec,
        v ≤ c + 1 := by
      intro v hv
      rw [flatStep_consec] at hv
      obtain ⟨a, _, ha⟩ := List.mem_map.mp hv
      rw [← ha]
      split
      · exact Nat.succ_le_succ (getD_le_of_forall hc a)
      · exact Nat.zero_le _
    have hrefl : (flatStep rule [] 0 hold rng size prev consec ctr).reflection
        = List.replicate size 0 := by
      rw [flatStep_reflection]
      refine foldl_set_no_fire hold _ size (List.range size) (List.replicate size 0)
        (fun i _ => not_le.mpr ?_)
      calc (flatStep rule [] 0 hold rng size prev consec ctr).consec.getD i 0
          ≤ c + 1 := getD_le_of_forall hcons2 i
        _ < hold := by omega
    have hnext : (flatStep rule [] 0 hold rng size prev consec ctr).next
        = baseNext rule size prev := by
      rw [flatStep_next]
      simp only [hprop, hrefl, getD_replicate_self]
      simp [baseNext]
    have ihstep := ih (flatStep rule [] 0 hold rng size prev consec ctr).next
      (flatStep rule [] 0 hold rng size prev consec ctr).consec
      (flatStep rule [] 0 hold rng size prev consec ctr).ctr
      (c + 1) hcons2 (by omega)
    constructor
    · show ((flatStep rule [] 0 hold rng size prev consec ctr)
          :: isTrace rule [] 0 hold rng size n _ _ _).map StepOut.next
        = baseNext rule size prev :: caSteps rule size n (baseNext rule size prev)
      rw [List.map_cons, ihstep.1, hnext]
    · intro o ho
      rcases List.mem_cons.mp ho with h | h
      · rw [h]
        exact ⟨hprop, hrefl⟩
      · exact ihstep.2 o h

/-- C4.  With an empty pattern set, injection probability 0 and a hold
threshold at least the step count, part_000's `runISVariant` produces,
from any shared seed row, exactly the grid of the pure `runCA` baseline
run, and every step of its trace has all-zero proposal and reflection
arrays — the three disabled sources (CPI, random injection, reflection)
emit nothing for the entire run. -/
theorem c4_disabling_law (rule size steps : Nat) (row0 : List Nat) (hold : Nat)
    (rng : Nat → ℚ) (hrng : ∀ n, 0 ≤ rng n) (hhold : steps ≤ hold) :
    runISVariantFrom rule size steps row0 [] 0 hold rng
        = runCAFrom rule size steps row0 ∧
    ∀ o ∈ isTrace rule [] 0 hold rng size (steps - 1) row0
        (List.replicate size 0) 0,
      o.proposal = List.replicate size 0 ∧ o.reflection = List.replicate size 0 := by
  rcases Nat.eq_zero_or_pos steps with h0 | hpos
  · subst h0
    exact ⟨rfl, fun o ho => absurd ho (List.not_mem_nil o)⟩
  · have hmain := isTrace_disabled rule size hold rng hrng (steps - 1) row0
      (List.replicate size 0) 0 0 (by simp) (by omega)
    refine ⟨?_, hmain.2⟩
    unfold runISVariantFrom runCAFrom
    rw [hmain.1]

/-- Witness for C4: rule 110, size 3, 3 steps, seed [0,1,0], hold 3,
all draws equal to 0. -/
theorem c4_disabling_law_witness :
    runISVariantFrom 110 3 3 [0, 1, 0] [] 0 3 (fun _ => 0)
      = runCAFrom 110 3 3 [0, 1, 0] :=
  (c4_disabling_law 110 3 3 [0, 1, 0] 3 (fun _ => 0)
    (fun _ => le_refl 0) (by decide)).1

end CAIS
